import Mathlib

/-!
Shallow embedding of the notion-local-mcp query engine (TypeScript sources
under `src/`): the rich-content decoder (`src/parser.ts` section of
`src/index.ts`), the identifier normalizer, and the query tools
(`src/tools/getPage.ts`, `src/tools/hierarchy.ts`, `src/tools/recent.ts`,
`src/tools/search.ts`).

Modelling conventions:
* JavaScript runtime values are modelled by the inductive `JsVal`
  (numbers as `Int`; the decoder functions only test numbers for
  truthiness, never do float arithmetic).
* `JSON.parse` is a JS builtin (an external boundary).  Wherever the code
  parses a JSON text column, the model receives the already-parsed value
  as `Option JsVal` / `Option ParsedSchema`, with `none` standing for a
  NULL / empty / unparsable blob (the code maps all three to the same
  empty result through its `try/catch`).
* The SQLite store is modelled as an explicit list of rows; each SQL
  statement in the source is translated to a filter / sort / take
  pipeline over that list.
* Machine timestamps are `Int` milliseconds.
-/

/-- A JavaScript runtime value (the dynamic values the decoder functions
receive after `JSON.parse`). Numbers are modelled as `Int`: the embedded
functions only compare numbers for truthiness. -/
inductive JsVal where
  | str : String → JsVal
  | num : Int → JsVal
  | bool : Bool → JsVal
  | null : JsVal
  | undefined : JsVal
  | arr : List JsVal → JsVal
  | obj : List (String × JsVal) → JsVal

/-- JavaScript truthiness: `null`, `undefined`, `false`, `0` and `""` are
falsy; every other value (arrays and objects included) is truthy. -/
def JsVal.truthy : JsVal → Bool
  | .str s => s ≠ ""
  | .num n => n ≠ 0
  | .bool b => b
  | .null => false
  | .undefined => false
  | .arr _ => true
  | .obj _ => true

/-- Property access `v[k]` on a parsed JSON value: field lookup on an
object, `undefined` otherwise (keys of a parsed object are unique, so the
first binding is the binding). -/
def JsVal.field (v : JsVal) (k : String) : JsVal :=
  match v with
  | .obj kvs => match kvs.find? (fun p => p.1 == k) with
    | some p => p.2
    | none => .undefined
  | _ => .undefined

/-- `Object.entries` on a parsed JSON value, as used by `extractAllText`
and `parseProperties`:  objects list their key/value pairs, arrays and
strings list index/element pairs, primitives have no entries, and
`Object.entries(null)` throws (modelled as `none`, which the callers'
`try/catch` turns into the empty result). -/
def JsVal.entriesOf : JsVal → Option (List (String × JsVal))
  | .obj kvs => some kvs
  | .arr l => some ((l.enum).map (fun p => (toString p.1, p.2)))
  | .str s => some ((s.data.enum).map (fun p => (toString p.1, JsVal.str (String.singleton p.2))))
  | .num _ => some []
  | .bool _ => some []
  | .null => none
  | .undefined => none

/-! ## Rich-content decoder (`extractTextFromRichText` and friends) -/

/-- JavaScript `String.prototype.trim`, modelled structurally: drop
whitespace from both ends. -/
def jsTrim (s : String) : String :=
  ⟨((s.data.dropWhile Char.isWhitespace).reverse.dropWhile Char.isWhitespace).reverse⟩

/-- One segment's contribution inside `extractTextFromRichText`: the
`.map` callback of the source (non-array segment → `""`, empty segment →
`""`, non-string first element → `""`, the page-reference glyph `‣` →
`""`, otherwise the text itself). -/
def segmentText : JsVal → String
  | .arr [] => ""
  | .arr (t :: _) =>
    match t with
    | .str s => if s = "‣" then "" else s
    | _ => ""
  | _ => ""

/-- `extractTextFromRichText` (src/index.ts): non-array input yields `""`;
otherwise the segment texts are joined with no separator and the result is
trimmed. -/
def extractTextFromRichText : JsVal → String
  | .arr segments => jsTrim (String.join (segments.map segmentText))
  | _ => ""

/-- `extractTitle` (src/index.ts): `none` models a NULL / empty /
unparsable properties blob (the source's falsy check and `try/catch`),
otherwise the plain text of the `title` field. -/
def extractTitle : Option JsVal → String
  | none => ""
  | some v => extractTextFromRichText (v.field "title")

/-- `extractAllText` (src/index.ts): every property value that is an
array contributes its plain text when non-empty; contributions are joined
with single spaces and the result trimmed. -/
def extractAllText : Option JsVal → String
  | none => ""
  | some v =>
    match v.entriesOf with
    | none => ""
    | some entries =>
      let texts := entries.filterMap (fun p =>
        match p.2 with
        | .arr segs =>
          let t := extractTextFromRichText (.arr segs)
          if t = "" then none else some t
        | _ => none)
      jsTrim (String.intercalate " " texts)

/-- `truncateText` (src/index.ts): texts within the limit are returned
unchanged, longer ones are cut at `maxLength` characters and get a single
ellipsis appended. -/
def truncateText (text : String) (maxLength : Nat) : String :=
  if text.length ≤ maxLength then text
  else ⟨text.data.take maxLength⟩ ++ "…"

/-! ## Identifier normalizer -/

/-- The source's global dash replace on an id: remove every dash. -/
def stripDashes (s : String) : String :=
  ⟨s.data.filter (fun c => c ≠ '-')⟩

/-- `id.includes('-')`. -/
def hasDash (s : String) : Bool :=
  s.data.contains '-'

/-- `s.slice(a, b)` on a JavaScript string. -/
def jsSlice (s : String) (a b : Nat) : String :=
  ⟨(s.data.drop a).take (b - a)⟩

/-- `s.slice(a)` on a JavaScript string. -/
def jsSliceFrom (s : String) (a : Nat) : String :=
  ⟨s.data.drop a⟩

/-- `formatNotionId` (src/index.ts): an id that already contains a dash is
returned unchanged; otherwise dashes are inserted after character offsets
8, 12, 16 and 20. -/
def formatNotionId (id : String) : String :=
  if hasDash id then id
  else jsSlice id 0 8 ++ "-" ++ jsSlice id 8 12 ++ "-" ++ jsSlice id 12 16 ++ "-"
    ++ jsSlice id 16 20 ++ "-" ++ jsSliceFrom id 20

/-- `createNotionUrl` (src/index.ts): dash-stripped id substituted into
the fixed URL template. -/
def createNotionUrl (pageId : String) : String :=
  "https://notion.so/" ++ stripDashes pageId

/-! ## Timestamp formatting -/

/-- Days-to-civil-date conversion (Howard Hinnant's algorithm): given a
day count relative to 1970-01-01, the (year, month, day) of the proleptic
Gregorian calendar.  Models the calendar arithmetic inside the JS `Date`
builtin. -/
def civilFromDays (z : Int) : Int × Int × Int :=
  let z' := z + 719468
  let era := z' / 146097
  let doe := z' - era * 146097
  let yoe := (doe - doe / 1460 + doe / 36524 - doe / 146096) / 365
  let y := yoe + era * 400
  let doy := doe - (365 * yoe + yoe / 4 - yoe / 100)
  let mp := (5 * doy + 2) / 153
  let d := doy - (153 * mp + 2) / 5 + 1
  let m := mp + (if mp < 10 then 3 else -9)
  (y + (if m ≤ 2 then 1 else 0), m, d)

/-- Zero-pad a natural to a given width. -/
def padNum (width : Nat) (n : Int) : String :=
  let s := toString n.natAbs
  let pad := width - s.length
  ⟨List.replicate pad '0'⟩ ++ s

/-- `new Date(ms).toISOString()`: the ISO-8601 UTC rendering of a
millisecond epoch timestamp.  Models the JS `Date` builtin (for the
plain four-digit-year range used by the store). -/
def toIsoString (ms : Int) : String :=
  let days := ms / 86400000
  let msOfDay := ms - days * 86400000
  let ymd := civilFromDays days
  let hh := msOfDay / 3600000
  let mm := (msOfDay % 3600000) / 60000
  let ss := (msOfDay % 60000) / 1000
  let mmm := msOfDay % 1000
  padNum 4 ymd.1 ++ "-" ++ padNum 2 ymd.2.1 ++ "-" ++ padNum 2 ymd.2.2 ++ "T"
    ++ padNum 2 hh ++ ":" ++ padNum 2 mm ++ ":" ++ padNum 2 ss ++ "."
    ++ padNum 3 mmm ++ "Z"

/-- `formatTimestamp` (src/index.ts): `if (!timestamp) return ''` — a NULL
timestamp, and equally the (falsy) number 0, yield the empty string;
any other timestamp is rendered via `toISOString`. -/
def formatTimestamp : Option Int → String
  | none => ""
  | some n => if n = 0 then "" else toIsoString n

/-! ## Relation extraction (`extractRelationIds`) -/

/-- One annotation's contribution inside `extractRelationIds`: an
annotation that is an array whose first element is exactly the string
`"p"` and whose second element is truthy yields that second element. -/
def annotationRelId : JsVal → Option JsVal
  | .arr (.str k :: y :: _) => if k = "p" && y.truthy then some y else none
  | _ => none

/-- The inner annotation loop of `extractRelationIds` for one segment:
segments that are not arrays of length ≥ 2, or whose second element is
not an array, contribute nothing. -/
def segmentRelIds : JsVal → List JsVal
  | .arr (_ :: ann :: _) =>
    match ann with
    | .arr annotations => annotations.filterMap annotationRelId
    | _ => []
  | _ => []

/-- `extractRelationIds` (src/index.ts): scan every segment's annotation
list and push the qualifying payloads in encounter order. -/
def extractRelationIds : List JsVal → List JsVal
  | [] => []
  | seg :: rest => segmentRelIds seg ++ extractRelationIds rest

/-! ## Schema-aware property projector (`parseProperties`) -/

/-- One option of a select-like schema property. -/
structure SchemaOption where
  id : String
  value : String

/-- A schema property definition (the parsed JSON may omit fields, hence
the `Option`s). -/
structure SchemaProperty where
  name : Option String
  type : Option String
  options : Option (List SchemaOption)

/-- A parsed collection schema: property-id / definition pairs in
insertion order (`parseSchema`; `none` upstream models a NULL or
unparsable schema blob). -/
def ParsedSchema := List (String × SchemaProperty)

/-- `schema?.[propId]`. -/
def schemaLookup (schema : Option ParsedSchema) (propId : String) : Option SchemaProperty :=
  schema.bind (fun s => (s.find? (fun p => p.1 == propId)).map (fun p => p.2))

/-- `schemaInfo?.name || propId` (JS `||`: an absent or empty name falls
back to the raw property id). -/
def resolvedPropName (schema : Option ParsedSchema) (propId : String) : String :=
  match schemaLookup schema propId with
  | some si =>
    match si.name with
    | some n => if n = "" then propId else n
    | none => propId
  | none => propId

/-- `schemaInfo?.type || 'unknown'`. -/
def resolvedPropType (schema : Option ParsedSchema) (propId : String) : String :=
  match schemaLookup schema propId with
  | some si =>
    match si.type with
    | some t => if t = "" then "unknown" else t
    | none => "unknown"
  | none => "unknown"

/-- A projected property value (`string | string[] | boolean | number |
null` in the source).  The `number` case keeps the text whose
`parseFloat` the source returns: `parseFloat` is a JS builtin boundary and
no decoded value ever feeds back into the engine. -/
inductive PropValue where
  | text : String → PropValue
  | items : List String → PropValue
  | flag : Bool → PropValue
  | numberFrom : String → PropValue
  | nullVal : PropValue
  | relIds : List JsVal → PropValue

/-- The `switch (propType)` of `parseProperties`, decoding one raw value
per declared type. `none` models the exception thrown when a `relation`
raw value is not iterable (the source's surrounding `try/catch` then
yields `null` for the whole map); iterating a string visits its
characters, none of which is an array, so it yields no ids. -/
def decodePropValue (propType : String) (rawValue : JsVal) : Option PropValue :=
  if propType = "checkbox" then
    some (.flag (extractTextFromRichText rawValue == "Yes"))
  else if propType = "number" then
    let numStr := extractTextFromRichText rawValue
    some (if numStr ≠ "" then .numberFrom numStr else .nullVal)
  else if propType = "multi_select" then
    let multiText := extractTextFromRichText rawValue
    some (if multiText ≠ "" then .items ((multiText.splitOn ",").map String.trim) else .items [])
  else if propType = "date" ∨ propType = "created_time" ∨ propType = "last_edited_time" then
    some (.text (extractTextFromRichText rawValue))
  else if propType = "relation" then
    match rawValue with
    | .arr segs => some (.relIds (extractRelationIds segs))
    | .str _ => some (.relIds [])
    | _ => none
  else
    some (.text (extractTextFromRichText rawValue))

/-- A projected property (`{name, type, value}`). -/
structure ParsedProperty where
  name : String
  type : String
  value : PropValue

/-- JS object assignment `result[k] = v`: an existing key keeps its
position and gets the new value, a fresh key is appended. -/
def jsObjSet {α : Type} (m : List (String × α)) (k : String) (v : α) : List (String × α) :=
  if m.any (fun p => p.1 == k) then
    m.map (fun p => if p.1 == k then (k, v) else p)
  else m ++ [(k, v)]

/-- The entry loop of `parseProperties` over the parsed raw property
entries: falsy raw values are skipped, every other value is decoded per
its schema-declared type and stored under its resolved display name
(later properties with the same display name overwrite earlier ones). -/
def parsePropertiesCore (schema : Option ParsedSchema) :
    List (String × JsVal) → List (String × ParsedProperty) →
    Option (List (String × ParsedProperty))
  | [], acc => some acc
  | (propId, rawValue) :: rest, acc =>
    if rawValue.truthy = false then parsePropertiesCore schema rest acc
    else
      let propName := resolvedPropName schema propId
      let propType := resolvedPropType schema propId
      match decodePropValue propType rawValue with
      | none => none
      | some v => parsePropertiesCore schema rest (jsObjSet acc propName ⟨propName, propType, v⟩)

/-- `parseProperties` (src/index.ts): `none` input models a NULL / empty /
unparsable properties blob; otherwise the parsed value's entries are
projected. -/
def parseProperties (props : Option JsVal) (schema : Option ParsedSchema) :
    Option (List (String × ParsedProperty)) :=
  match props with
  | none => none
  | some v =>
    match v.entriesOf with
    | none => none
    | some entries => parsePropertiesCore schema entries []

/-- One displayed schema entry (`{type, options?}`); the type is absent
when the schema property declares none. -/
structure SchemaDisplay where
  type : Option String
  options : Option (List String)

/-- `formatSchemaForDisplay` (src/index.ts): keyed by display name,
options listed only when present and non-empty. -/
def formatSchemaForDisplay (schema : Option ParsedSchema) :
    Option (List (String × SchemaDisplay)) :=
  match schema with
  | none => none
  | some s =>
    some (s.foldl (fun acc p =>
      let prop := p.2
      let key := match prop.name with | some n => n | none => "undefined"
      let opts := match prop.options with
        | some os => if os.length > 0 then some (os.map (fun o => o.value)) else none
        | none => none
      jsObjSet acc key ⟨prop.type, opts⟩) [])

/-! ## The stored rows and the SQL pipelines

The storage collaborator is a read-only SQLite database; the model holds
its two tables as explicit row lists and translates each SQL statement of
the source into a filter / sort / take pipeline.  JSON text columns are
carried in parsed form (`Option JsVal`, see the header); for the one
statement that treats the blob as plain text (`properties LIKE ?` in
search) the blob text is recovered by rendering the parsed value. -/

/-- A row of the `block` table (`BlockRow` in src/database.ts, plus the
two optional columns `collection_id` / `parent_table` selected by
getPage). `properties` is the parsed JSON blob, `none` for NULL. -/
structure BlockRow where
  id : String
  type : String
  properties : Option JsVal
  parent_id : Option String
  created_time : Option Int
  last_edited_time : Option Int
  alive : Bool
  collection_id : Option String := none
  parent_table : Option String := none

/-- A row of the `collection` table (`CollectionRow` in src/database.ts);
`name` is the parsed rich-text JSON, `schema` the parsed schema JSON. -/
structure CollectionRow where
  id : String
  name : Option JsVal
  schema : Option ParsedSchema
  description : Option String := none
  parent_id : Option String := none
  alive : Bool

/-- The read-only store. -/
structure Store where
  blocks : List BlockRow
  collections : List CollectionRow

mutual

/-- Rendering of a parsed JSON value back to its stored text, used to
model `properties LIKE ?`: the pattern match inspects the raw blob text.
`undefined` cannot occur in a parsed blob and renders as `null`. -/
def jsonRender : JsVal → String
  | .str s => "\"" ++ s ++ "\""
  | .num n => toString n
  | .bool b => if b then "true" else "false"
  | .null => "null"
  | .undefined => "null"
  | .arr l => "[" ++ String.intercalate "," (jsonRenderList l) ++ "]"
  | .obj kvs => "\x7b" ++ String.intercalate "," (jsonRenderKVs kvs) ++ "\x7d"

/-- Renders each element of a JSON array. -/
def jsonRenderList : List JsVal → List String
  | [] => []
  | v :: rest => jsonRender v :: jsonRenderList rest

/-- Renders each binding of a JSON object. -/
def jsonRenderKVs : List (String × JsVal) → List String
  | [] => []
  | (k, v) :: rest => ("\"" ++ k ++ "\":" ++ jsonRender v) :: jsonRenderKVs rest

end

/-- Insert into a sorted list, before the first element that does not
compare ≤ to the new one. -/
def insertSorted {α : Type} (le : α → α → Bool) (x : α) : List α → List α
  | [] => [x]
  | y :: ys => if le x y then x :: y :: ys else y :: insertSorted le x ys

/-- Stable insertion sort, modelling a SQL `ORDER BY` (on ties it keeps
the stored row order; SQLite leaves tie order unspecified, and no claim
depends on it). -/
def sortBy {α : Type} (le : α → α → Bool) : List α → List α
  | [] => []
  | x :: xs => insertSorted le x (sortBy le xs)

/-- Does `hay` start with `pat`? -/
def charsStartWith : List Char → List Char → Bool
  | _, [] => true
  | [], _ :: _ => false
  | h :: hs, p :: ps => h == p && charsStartWith hs ps

/-- Is `pat` a contiguous substring of `hay`? -/
def charsContain (pat : List Char) : List Char → Bool
  | [] => charsStartWith [] pat
  | h :: t => charsStartWith (h :: t) pat || charsContain pat t

/-- ASCII lowercasing, as SQLite's `LIKE` applies it. -/
def asciiLower (s : String) : String :=
  ⟨s.data.map Char.toLower⟩

/-- `properties LIKE '%query%'` for a block row: a NULL blob never
matches; otherwise an ASCII-case-insensitive substring match against the
blob text.  (A `%` or `_` inside the query itself would act as a nested
wildcard in SQLite; no settled claim depends on that, and the model treats
them as plain characters.) -/
def likeMatches (query : String) (properties : Option JsVal) : Bool :=
  match properties with
  | none => false
  | some v => charsContain (asciiLower query).data (asciiLower (jsonRender v)).data

/-- `ORDER BY last_edited_time DESC` comparator (every row the source
sorts with it was selected with a non-NULL `last_edited_time`). -/
def byLastEditedDesc (a b : BlockRow) : Bool :=
  b.last_edited_time.getD 0 ≤ a.last_edited_time.getD 0

/-- `ORDER BY CASE WHEN type = 'page' THEN 0 ELSE 1 END, last_edited_time
DESC` comparator of the scope-`all` search. -/
def byPageFirstThenEditedDesc (a b : BlockRow) : Bool :=
  let ra : Nat := if a.type == "page" then 0 else 1
  let rb : Nat := if b.type == "page" then 0 else 1
  if ra = rb then byLastEditedDesc a b else ra < rb

/-- `ORDER BY created_time ASC` comparator (SQLite sorts NULLs first). -/
def byCreatedAsc (a b : BlockRow) : Bool :=
  match a.created_time, b.created_time with
  | none, _ => true
  | some _, none => false
  | some x, some y => x ≤ y

/-! ## `search` (src/tools/search.ts) -/

/-- One search result row. -/
structure SearchResult where
  id : String
  title : String
  type : String
  lastEdited : String
  url : String

/-- The parameters of `search` with the source's defaults. -/
structure SearchParams where
  query : String
  type : String := "page"
  limit : Nat := 20

/-- Builds one `SearchResult`: the title falls back to a bracketed type
label when no title text is extractable (JS `||`), the url is populated
only for page-type rows. -/
def mkSearchResult (row : BlockRow) : SearchResult :=
  let t := extractTitle row.properties
  { id := row.id
    title := if t = "" then "[" ++ row.type ++ "]" else t
    type := row.type
    lastEdited := formatTimestamp row.last_edited_time
    url := if row.type == "page" then createNotionUrl row.id else "" }

/-- `search` (src/tools/search.ts): an empty-after-trim query throws; a
`page`-scope search selects alive page rows whose blob matches, newest
first; an `all`-scope search selects every alive matching row, pages
first then newest first; both are bounded by `limit`. -/
def search (store : Store) (params : SearchParams) : Except String (List SearchResult) :=
  if jsTrim params.query = "" then .error "Query is required"
  else
    let rows :=
      if params.type == "page" then
        (sortBy byLastEditedDesc (store.blocks.filter (fun b =>
            b.alive && b.type == "page" && likeMatches params.query b.properties))).take
          params.limit
      else
        (sortBy byPageFirstThenEditedDesc (store.blocks.filter (fun b =>
            b.alive && likeMatches params.query b.properties))).take params.limit
    .ok (rows.map mkSearchResult)

/-! ## `getRecentPages` (src/tools/recent.ts) -/

/-- One recent-page result row. -/
structure RecentPage where
  id : String
  title : String
  lastEdited : String
  url : String

/-- The parameters of `getRecentPages` with the source's defaults. -/
structure RecentParams where
  limit : Nat := 20
  days : Int := 30

/-- Builds one `RecentPage` from a block row. -/
def mkRecentPage (row : BlockRow) : RecentPage :=
  { id := row.id
    title := extractTitle row.properties
    lastEdited := formatTimestamp row.last_edited_time
    url := createNotionUrl row.id }

/-- `last_edited_time > cutoff` (NULL compares to nothing). -/
def editedAfter (row : BlockRow) (cutoff : Int) : Bool :=
  match row.last_edited_time with
  | none => false
  | some t => cutoff < t

/-- `getRecentPages` (src/tools/recent.ts): alive page rows modified
strictly after `now − days·86400000` ms, newest first, at most `limit`
rows, and only afterwards the rows whose extracted title is empty are
dropped. `now` stands for `Date.now()`. -/
def getRecentPages (store : Store) (params : RecentParams) (now : Int) : List RecentPage :=
  let cutoffTime := now - params.days * 24 * 60 * 60 * 1000
  let rows :=
    (sortBy byLastEditedDesc (store.blocks.filter (fun b =>
        b.type == "page" && b.alive && editedAfter b cutoffTime))).take params.limit
  (rows.map mkRecentPage).filter (fun page => page.title.length > 0)

/-! ## `getPage` (src/tools/getPage.ts) -/

/-- One emitted content block: `{id, type, text}` plus a `children` field
that is present only when non-empty. -/
inductive BlockContent where
  | node (id type text : String) (children : Option (List BlockContent))

mutual

/-- The number of blocks in a content forest, children included. -/
def countBlocksList : List BlockContent → Nat
  | [] => 0
  | b :: rest => countBlocksOne b + countBlocksList rest

/-- The number of blocks in one content node, children included. -/
def countBlocksOne : BlockContent → Nat
  | .node _ _ _ none => 1
  | .node _ _ _ (some cs) => 1 + countBlocksList cs

end

/-- `options.maxBlocks && options.blockCount.count >= options.maxBlocks`:
an absent — and, by JS truthiness, a zero — cap never triggers. -/
def capReached (maxBlocks : Option Int) (count : Nat) : Bool :=
  match maxBlocks with
  | none => false
  | some m => m ≠ 0 && m ≤ (count : Int)

/-- The child query of `getChildBlocks`: alive direct children ordered by
creation time ascending. -/
def childrenQuery (store : Store) (parentId : String) : List BlockRow :=
  sortBy byCreatedAsc (store.blocks.filter (fun b => b.parent_id == some parentId && b.alive))

/-- The row loop of `getChildBlocks` at the deepest level
(`currentDepth = maxDepth − 1`): the recursive call for the children
returns nothing at its depth check, so every emitted node is childless.
The source's shared mutable block counter is threaded explicitly. -/
def walkRowsZero (store : Store) (maxBlocks : Option Int) (maxTextLength : Nat) :
    List BlockRow → Nat → List BlockContent × Nat
  | [], count => ([], count)
  | row :: rest, count =>
    if capReached maxBlocks count then ([], count)
    else
      let count1 := count + 1
      let node := BlockContent.node row.id row.type
        (truncateText (extractAllText row.properties) maxTextLength) none
      let restPair := walkRowsZero store maxBlocks maxTextLength rest count1
      (node :: restPair.1, restPair.2)

/-- The row loop of `getChildBlocks` above the deepest level, with the
descent into a row's children abstracted as `child` (the recursive call
with its cap entry check inlined at the call site).  Per row: stop if the
cap is reached, count the row, emit `{id, type, truncated text}`, descend,
and attach the children only when non-empty. -/
def walkRowsSucc (store : Store) (maxBlocks : Option Int) (maxTextLength : Nat)
    (child : String → Nat → List BlockContent × Nat) :
    List BlockRow → Nat → List BlockContent × Nat
  | [], count => ([], count)
  | row :: rest, count =>
    if capReached maxBlocks count then ([], count)
    else
      let count1 := count + 1
      let childPair :=
        if capReached maxBlocks count1 then ([], count1) else child row.id count1
      let children := childPair.1
      let node := BlockContent.node row.id row.type
        (truncateText (extractAllText row.properties) maxTextLength)
        (if children.isEmpty then none else some children)
      let restPair := walkRowsSucc store maxBlocks maxTextLength child rest childPair.2
      (node :: restPair.1, restPair.2)

/-- The recursive descent of `getChildBlocks`, by remaining depth
(`fuel = maxDepth − currentDepth − 1` levels left below the rows being
processed). -/
def walkBlocks (store : Store) (maxBlocks : Option Int) (maxTextLength : Nat) :
    Nat → List BlockRow → Nat → List BlockContent × Nat
  | 0 => walkRowsZero store maxBlocks maxTextLength
  | fuel + 1 => walkRowsSucc store maxBlocks maxTextLength
      (fun pid c => walkBlocks store maxBlocks maxTextLength fuel (childrenQuery store pid) c)

/-- `getChildBlocks` (src/tools/getPage.ts): nothing at or beyond
`maxDepth`, nothing once the cap is reached, otherwise the row loop over
the alive children. -/
def getChildBlocks (store : Store) (maxBlocks : Option Int) (maxTextLength : Nat)
    (parentId : String) (currentDepth maxDepth : Nat) (count : Nat) :
    List BlockContent × Nat :=
  if maxDepth ≤ currentDepth then ([], count)
  else if capReached maxBlocks count then ([], count)
  else walkBlocks store maxBlocks maxTextLength (maxDepth - currentDepth - 1)
    (childrenQuery store parentId) count

/-- Level expansion of the `WITH RECURSIVE block_tree` count
(`countAllBlocks`): each level contributes the alive children of the
previous level's ids.  On a cyclic store the recursive CTE itself never
terminates; the fuel `blocks.length + 1` makes the model total and is
exact on acyclic stores, whose trees are at most that deep. -/
def countAllBlocksAux (store : Store) : Nat → List String → Nat
  | 0, _ => 0
  | fuel + 1, frontier =>
    let next := frontier.flatMap (fun pid =>
      (store.blocks.filter (fun b => b.parent_id == some pid && b.alive)).map (fun b => b.id))
    next.length + countAllBlocksAux store fuel next

/-- `countAllBlocks` (src/tools/getPage.ts): the true total number of
alive descendants of a block. -/
def countAllBlocks (store : Store) (parentId : String) : Nat :=
  countAllBlocksAux store (store.blocks.length + 1) [parentId]

/-- Dash-tolerant alive-only block resolution (`WHERE (id = ? OR
REPLACE(id, '-', '') = ?) AND alive = 1 LIMIT 1`, bound to the raw and
the dash-stripped id). -/
def resolveBlock (store : Store) (idStr : String) : Option BlockRow :=
  store.blocks.find? (fun b => (b.id == idStr || stripDashes b.id == stripDashes idStr) && b.alive)

/-- `queryCollection` (src/database.ts): dash-tolerant alive-only
collection resolution. -/
def queryCollection (store : Store) (collectionId : String) : Option CollectionRow :=
  store.collections.find? (fun c =>
    (c.id == collectionId || stripDashes c.id == stripDashes collectionId) && c.alive)

/-- The attached database info of a database page. -/
structure DatabaseInfo where
  collectionId : String
  collectionName : String
  schema : Option (List (String × SchemaDisplay))

/-- The result of `getPage`.  Optional fields are absent (`none`) unless
the corresponding branch of the source sets them; `properties` can be
present yet `null`, hence the nested `Option`. -/
structure PageContent where
  id : String
  title : String
  type : String
  lastEdited : String
  url : String
  content : List BlockContent
  database : Option DatabaseInfo := none
  properties : Option (Option (List (String × ParsedProperty))) := none
  summary : Option Bool := none
  totalBlocks : Option Nat := none
  hint : Option String := none

/-- The parameters of `getPage` with the source's defaults. -/
structure GetPageParams where
  pageId : String
  depth : Nat := 2
  summary : Bool := true
  maxBlocks : Option Int := none

/-- `params.maxBlocks ?? (summary ? 10 : 100)`. -/
def effectiveBlockCap (params : GetPageParams) : Int :=
  params.maxBlocks.getD (if params.summary then 10 else 100)

/-- `summary ? 200 : 500`. -/
def effectiveTextCap (params : GetPageParams) : Nat :=
  if params.summary then 200 else 500

/-- `page.collection_id || (page.parent_table === 'collection' ?
page.parent_id : null)` (JS `||`: an empty-string collection id also
falls through). -/
def collectionIdOf (page : BlockRow) : Option String :=
  let fallback := if page.parent_table == some "collection" then page.parent_id else none
  match page.collection_id with
  | some c => if c = "" then fallback else some c
  | none => fallback

/-- `getPage` (src/tools/getPage.ts): resolve the page (dash-tolerant,
alive-only), materialize the capped child subtree, attach summary info in
summary mode, and attach database schema / decoded properties when the
page belongs to a collection that resolves. -/
def getPage (store : Store) (params : GetPageParams) : Except String PageContent :=
  let maxBlocks := effectiveBlockCap params
  let maxTextLength := effectiveTextCap params
  if jsTrim params.pageId = "" then .error "pageId is required"
  else
    match resolveBlock store params.pageId with
    | none => .error ("Page not found: " ++ params.pageId)
    | some page =>
      let pair := getChildBlocks store (some maxBlocks) maxTextLength page.id 0 params.depth 0
      let base : PageContent :=
        { id := page.id, title := extractTitle page.properties, type := page.type,
          lastEdited := formatTimestamp page.last_edited_time,
          url := createNotionUrl page.id, content := pair.1 }
      let withSummary :=
        if params.summary then
          let totalBlocks := countAllBlocks store page.id
          { base with
            summary := some true
            totalBlocks := some totalBlocks
            hint := if pair.2 < totalBlocks then
                some (toString pair.2 ++ " of " ++ toString totalBlocks ++
                  " blocks shown. Use summary=false for full content.")
              else none }
        else base
      let final :=
        match collectionIdOf page with
        | none => withSummary
        | some cid =>
          match queryCollection store cid with
          | none => withSummary
          | some collection =>
            { withSummary with
              database := some
                { collectionId := collection.id
                  collectionName := extractTitle collection.name
                  schema := formatSchemaForDisplay collection.schema }
              properties := some (parseProperties page.properties collection.schema) }
      .ok final

/-! ## `getParents` (src/tools/hierarchy.ts) -/

/-- One ancestor entry of `getParents` (`{id, title, type, url}`; the url
is populated only for page-type ancestors). -/
structure ParentNode where
  id : String
  title : String
  type : String
  url : String

/-- Builds one ancestor entry. -/
def mkParentNode (b : BlockRow) : ParentNode :=
  { id := b.id, title := extractTitle b.properties, type := b.type,
    url := if b.type == "page" then createNotionUrl b.id else "" }

/-- The `while` loop of `getParents`, with the `visited` set and the
`ancestors` accumulator explicit.  The loop has no bound in the source
(`while (currentId)`); the fuel models it, and `parentsLoop_fuel_stable`
below proves the chosen fuel is past the loop's stopping time, i.e. the
loop terminates.  An iteration stops on a revisited identifier, a
dangling reference, or an absent parent; the starting block itself is not
pushed (`ancestors.length > 0 || currentId !== pageId`). -/
def parentsLoop (store : Store) (pageId : String) :
    Nat → Option String → List String → List ParentNode → List ParentNode
  | 0, _, _, acc => acc
  | _ + 1, none, _, acc => acc
  | fuel + 1, some currentId, visited, acc =>
    if currentId ∈ visited then acc
    else
      match resolveBlock store currentId with
      | none => acc
      | some block =>
        let acc' := if acc.length > 0 || currentId != pageId
          then acc ++ [mkParentNode block] else acc
        parentsLoop store pageId fuel block.parent_id (currentId :: visited) acc'

/-- Fuel past the loop's stopping time: every iteration consumes a fresh
identifier out of `pageId` plus the stored parent ids, and one final
iteration detects the stop. -/
def parentsFuel (store : Store) : Nat := store.blocks.length + 2

/-- `getParents` (src/tools/hierarchy.ts). -/
def getParents (store : Store) (pageId : String) : Except String (List ParentNode) :=
  if jsTrim pageId = "" then .error "pageId is required"
  else .ok (parentsLoop store pageId (parentsFuel store) (some pageId) [] [])

/-! ## Lemmas about the capped traversal -/

/-- A false cap check with a positive cap means the counter is still
strictly below the cap. -/
theorem capReached_false_lt {m : Int} {count : Nat} (hm : 0 < m)
    (h : ¬ capReached (some m) count = true) : (count : Int) < m := by
  have hm0 : m ≠ 0 := by omega
  simp [capReached, hm0] at h
  omega

/-- The count of a node whose children field is attached only when
non-empty. -/
theorem countBlocksOne_node (i t x : String) (cs : List BlockContent) :
    countBlocksOne (.node i t x (if cs.isEmpty then none else some cs))
      = 1 + countBlocksList cs := by
  cases cs with
  | nil => simp [countBlocksOne, countBlocksList]
  | cons a l => simp [countBlocksOne, List.isEmpty_cons]

/-- Counter delta of the deepest-level row loop = number of emitted
blocks. -/
theorem walkRowsZero_count (store : Store) (mb : Option Int) (mtl : Nat) :
    ∀ (rows : List BlockRow) (count : Nat),
    (walkRowsZero store mb mtl rows count).2
      = count + countBlocksList (walkRowsZero store mb mtl rows count).1 := by
  intro rows
  induction rows with
  | nil => intro count; simp [walkRowsZero, countBlocksList]
  | cons row rest IHr =>
    intro count
    rw [walkRowsZero]
    by_cases hc : capReached mb count = true
    · simp [hc, countBlocksList]
    · simp only [hc, Bool.false_eq_true, if_false]
      have h2 := IHr (count + 1)
      simp only [countBlocksList, countBlocksOne]
      omega

/-- Counter delta of the inner row loop = number of emitted blocks,
provided the descent has the same property. -/
theorem walkRowsSucc_count (store : Store) (mb : Option Int) (mtl : Nat)
    (child : String → Nat → List BlockContent × Nat)
    (hchild : ∀ pid c, (child pid c).2 = c + countBlocksList (child pid c).1) :
    ∀ (rows : List BlockRow) (count : Nat),
    (walkRowsSucc store mb mtl child rows count).2
      = count + countBlocksList (walkRowsSucc store mb mtl child rows count).1 := by
  intro rows
  induction rows with
  | nil => intro count; simp [walkRowsSucc, countBlocksList]
  | cons row rest IHr =>
    intro count
    rw [walkRowsSucc]
    by_cases hc : capReached mb count = true
    · simp [hc, countBlocksList]
    · simp only [hc, Bool.false_eq_true, if_false]
      by_cases hc1 : capReached mb (count + 1) = true
      · simp only [hc1, if_true]
        have h2 := IHr (count + 1)
        simp only [countBlocksList, countBlocksOne_node]
        simp only [countBlocksList] at *
        omega
      · simp only [hc1, Bool.false_eq_true, if_false]
        have hch := hchild row.id (count + 1)
        have h2 := IHr (child row.id (count + 1)).2
        simp only [countBlocksList, countBlocksOne_node]
        omega

/-- The counter delta of the whole traversal equals the number of emitted
blocks: the source increments the shared counter exactly once per emitted
block. -/
theorem walk_count (store : Store) (mb : Option Int) (mtl : Nat) :
    ∀ (fuel : Nat) (rows : List BlockRow) (count : Nat),
    (walkBlocks store mb mtl fuel rows count).2
      = count + countBlocksList (walkBlocks store mb mtl fuel rows count).1 := by
  intro fuel
  induction fuel with
  | zero => intro rows count; rw [walkBlocks]; exact walkRowsZero_count store mb mtl rows count
  | succ fuel IH =>
    intro rows count
    rw [walkBlocks]
    exact walkRowsSucc_count store mb mtl _
      (fun pid c => IH (childrenQuery store pid) c) rows count

/-- With a positive cap, the deepest-level row loop never pushes the
counter past the cap. -/
theorem walkRowsZero_cap_le (store : Store) (m : Int) (mtl : Nat) (hm : 0 < m) :
    ∀ (rows : List BlockRow) (count : Nat), (count : Int) ≤ m →
    ((walkRowsZero store (some m) mtl rows count).2 : Int) ≤ m := by
  intro rows
  induction rows with
  | nil => intro count hcount; simpa [walkRowsZero] using hcount
  | cons row rest IHr =>
    intro count hcount
    rw [walkRowsZero]
    by_cases hc : capReached (some m) count = true
    · simpa [hc] using hcount
    · simp only [hc, Bool.false_eq_true, if_false]
      have hlt := capReached_false_lt hm hc
      have h2 := IHr (count + 1) (by push_cast; omega)
      simpa using h2

/-- With a positive cap, the inner row loop never pushes the counter past
the cap, provided the descent has the same property. -/
theorem walkRowsSucc_cap_le (store : Store) (m : Int) (mtl : Nat) (hm : 0 < m)
    (child : String → Nat → List BlockContent × Nat)
    (hchild : ∀ (pid : String) (c : Nat), (c : Int) ≤ m → ((child pid c).2 : Int) ≤ m) :
    ∀ (rows : List BlockRow) (count : Nat), (count : Int) ≤ m →
    ((walkRowsSucc store (some m) mtl child rows count).2 : Int) ≤ m := by
  intro rows
  induction rows with
  | nil => intro count hcount; simpa [walkRowsSucc] using hcount
  | cons row rest IHr =>
    intro count hcount
    rw [walkRowsSucc]
    by_cases hc : capReached (some m) count = true
    · simpa [hc] using hcount
    · simp only [hc, Bool.false_eq_true, if_false]
      have hlt := capReached_false_lt hm hc
      by_cases hc1 : capReached (some m) (count + 1) = true
      · simp only [hc1, if_true]
        have h2 := IHr (count + 1) (by push_cast; omega)
        simpa using h2
      · simp only [hc1, Bool.false_eq_true, if_false]
        have hch := hchild row.id (count + 1) (by push_cast; omega)
        have h2 := IHr (child row.id (count + 1)).2 hch
        simpa using h2

/-- With a positive cap, the traversal never pushes the counter past the
cap: the check runs before every emission. -/
theorem walk_cap_le (store : Store) (m : Int) (mtl : Nat) (hm : 0 < m) :
    ∀ (fuel : Nat) (rows : List BlockRow) (count : Nat), (count : Int) ≤ m →
    ((walkBlocks store (some m) mtl fuel rows count).2 : Int) ≤ m := by
  intro fuel
  induction fuel with
  | zero =>
    intro rows count hcount
    rw [walkBlocks]
    exact walkRowsZero_cap_le store m mtl hm rows count hcount
  | succ fuel IH =>
    intro rows count hcount
    rw [walkBlocks]
    exact walkRowsSucc_cap_le store m mtl hm _
      (fun pid c hc => IH (childrenQuery store pid) c hc) rows count hcount

/-- The deepest-level row loop only reads the cap through `capReached`. -/
theorem walkRowsZero_congr_cap (store : Store) (mb1 mb2 : Option Int) (mtl : Nat)
    (hcap : ∀ c, capReached mb1 c = capReached mb2 c) :
    ∀ (rows : List BlockRow) (count : Nat),
    walkRowsZero store mb1 mtl rows count = walkRowsZero store mb2 mtl rows count := by
  intro rows
  induction rows with
  | nil => intro count; simp [walkRowsZero]
  | cons row rest IHr =>
    intro count
    rw [walkRowsZero, walkRowsZero]
    simp only [hcap, IHr]

/-- The inner row loop only reads the cap through `capReached` and the
descent through `child`. -/
theorem walkRowsSucc_congr (store : Store) (mb1 mb2 : Option Int) (mtl : Nat)
    (child1 child2 : String → Nat → List BlockContent × Nat)
    (hcap : ∀ c, capReached mb1 c = capReached mb2 c)
    (hchild : ∀ pid c, child1 pid c = child2 pid c) :
    ∀ (rows : List BlockRow) (count : Nat),
    walkRowsSucc store mb1 mtl child1 rows count
      = walkRowsSucc store mb2 mtl child2 rows count := by
  intro rows
  induction rows with
  | nil => intro count; simp [walkRowsSucc]
  | cons row rest IHr =>
    intro count
    rw [walkRowsSucc, walkRowsSucc]
    simp only [hcap, hchild, IHr]

/-- A cap of `0` is falsy in the source's check, so the traversal behaves
exactly as with no cap at all. -/
theorem walk_zero_cap_eq (store : Store) (mtl : Nat) :
    ∀ (fuel : Nat) (rows : List BlockRow) (count : Nat),
    walkBlocks store (some 0) mtl fuel rows count
      = walkBlocks store none mtl fuel rows count := by
  intro fuel
  induction fuel with
  | zero =>
    intro rows count
    rw [walkBlocks, walkBlocks]
    exact walkRowsZero_congr_cap store (some 0) none mtl (fun c => by simp [capReached]) rows count
  | succ fuel IH =>
    intro rows count
    rw [walkBlocks, walkBlocks]
    exact walkRowsSucc_congr store (some 0) none mtl _ _
      (fun c => by simp [capReached])
      (fun pid c => IH (childrenQuery store pid) c) rows count

/-! ## Spec-side uncapped traversal (for the zero-cap claim)

`uncappedChildren` is the claim's reading of the zero-cap behaviour: the
returned tree is bounded only by depth, never by a block count. -/

/-- Depth-only row rendering at the deepest level. -/
def uncappedRowsZero (store : Store) (mtl : Nat) : List BlockRow → List BlockContent
  | [] => []
  | row :: rest =>
    BlockContent.node row.id row.type (truncateText (extractAllText row.properties) mtl) none
      :: uncappedRowsZero store mtl rest

/-- Depth-only row rendering above the deepest level. -/
def uncappedRowsSucc (store : Store) (mtl : Nat) (child : String → List BlockContent) :
    List BlockRow → List BlockContent
  | [] => []
  | row :: rest =>
    let children := child row.id
    BlockContent.node row.id row.type (truncateText (extractAllText row.properties) mtl)
      (if children.isEmpty then none else some children)
      :: uncappedRowsSucc store mtl child rest

/-- Depth-only recursive descent: every alive child is rendered, bounded
only by the remaining depth. -/
def uncappedChildren (store : Store) (mtl : Nat) : Nat → List BlockRow → List BlockContent
  | 0 => uncappedRowsZero store mtl
  | fuel + 1 => uncappedRowsSucc store mtl
      (fun pid => uncappedChildren store mtl fuel (childrenQuery store pid))

/-- The depth-only reading of a whole `getPage` content forest. -/
def depthOnlyContent (store : Store) (mtl depth : Nat) (rootId : String) : List BlockContent :=
  if depth = 0 then [] else uncappedChildren store mtl (depth - 1) (childrenQuery store rootId)

/-- Without a cap the deepest-level row loop renders every row. -/
theorem walkRowsZero_none_fst (store : Store) (mtl : Nat) :
    ∀ (rows : List BlockRow) (count : Nat),
    (walkRowsZero store none mtl rows count).1 = uncappedRowsZero store mtl rows := by
  intro rows
  induction rows with
  | nil => intro count; simp [walkRowsZero, uncappedRowsZero]
  | cons row rest IHr =>
    intro count
    rw [walkRowsZero, uncappedRowsZero]
    simp only [capReached, Bool.false_eq_true, if_false, IHr]

/-- Without a cap the inner row loop renders every row, provided the
descent does. -/
theorem walkRowsSucc_none_fst (store : Store) (mtl : Nat)
    (child : String → Nat → List BlockContent × Nat) (childF : String → List BlockContent)
    (hchild : ∀ pid c, (child pid c).1 = childF pid) :
    ∀ (rows : List BlockRow) (count : Nat),
    (walkRowsSucc store none mtl child rows count).1
      = uncappedRowsSucc store mtl childF rows := by
  intro rows
  induction rows with
  | nil => intro count; simp [walkRowsSucc, uncappedRowsSucc]
  | cons row rest IHr =>
    intro count
    rw [walkRowsSucc, uncappedRowsSucc]
    simp only [capReached, Bool.false_eq_true, if_false, hchild, IHr]

/-- Without a cap the traversal is exactly the depth-only traversal. -/
theorem walk_none_fst (store : Store) (mtl : Nat) :
    ∀ (fuel : Nat) (rows : List BlockRow) (count : Nat),
    (walkBlocks store none mtl fuel rows count).1 = uncappedChildren store mtl fuel rows := by
  intro fuel
  induction fuel with
  | zero =>
    intro rows count
    rw [walkBlocks, uncappedChildren]
    exact walkRowsZero_none_fst store mtl rows count
  | succ fuel IH =>
    intro rows count
    rw [walkBlocks, uncappedChildren]
    exact walkRowsSucc_none_fst store mtl _ _
      (fun pid c => IH (childrenQuery store pid) c) rows count

/-- Shape of every successful `getPage`: the page is the dash-tolerant
resolution of the requested id, the result carries its id, and the
content is the capped traversal from it. -/
theorem getPage_ok_shape (store : Store) (params : GetPageParams) (pc : PageContent)
    (h : getPage store params = .ok pc) :
    ∃ page, resolveBlock store params.pageId = some page ∧ pc.id = page.id ∧
      pc.content = (getChildBlocks store (some (effectiveBlockCap params))
        (effectiveTextCap params) page.id 0 params.depth 0).1 := by
  unfold getPage at h
  by_cases htrim : jsTrim params.pageId = ""
  · simp [htrim] at h
  · simp only [htrim, if_false] at h
    cases hres : resolveBlock store params.pageId with
    | none => rw [hres] at h; simp at h
    | some page =>
      rw [hres] at h
      simp only [Except.ok.injEq] at h
      subst h
      refine ⟨page, rfl, ?_, ?_⟩ <;>
      · by_cases hs : params.summary <;>
        · cases hcol : collectionIdOf page with
          | none => simp [hs, hcol, effectiveBlockCap, effectiveTextCap]
          | some cid =>
            cases hq : queryCollection store cid <;>
              simp [hs, hcol, hq, effectiveBlockCap, effectiveTextCap]

/-! ## Concrete demonstration store (witness inputs) -/

/-- A minimal parsed properties blob with the given title text. -/
def demoTitle (s : String) : JsVal := .obj [("title", .arr [.arr [.str s]])]

/-- A live page row. -/
def demoRoot : BlockRow :=
  { id := "p0"
    type := "page"
    properties := some (demoTitle "Root")
    parent_id := none
    created_time := some 1
    last_edited_time := some 5
    alive := true }

/-- A live text block under `demoRoot`. -/
def demoChild : BlockRow :=
  { id := "c1"
    type := "text"
    properties := some (demoTitle "Child")
    parent_id := some "p0"
    created_time := some 2
    last_edited_time := some 6
    alive := true }

/-- A two-row store: one page with one child block. -/
def demoStore : Store := { blocks := [demoRoot, demoChild], collections := [] }

/-- `getPage` parameters that pass an explicit `maxBlocks = 0`. -/
def zeroCapParams : GetPageParams := { pageId := "p0", maxBlocks := some 0 }

/-- The content forest of a `getPage` result (empty on error). -/
def okContent : Except String PageContent → List BlockContent
  | .ok pc => pc.content
  | .error _ => []

/-! ## C1 -/

/-- C1 counterexample: with a supplied `maxBlocks = 0` the effective
block cap is 0, yet `getPage` emits 1 block on `demoStore` — the claim
"the total number of blocks emitted is at most the effective block cap,
where the effective cap is maxBlocks when the caller supplies it" fails
at this input. -/
theorem c1_counterexample :
    countBlocksList (okContent (getPage demoStore zeroCapParams)) = 1 ∧
    effectiveBlockCap zeroCapParams = 0 ∧
    ¬ ((countBlocksList (okContent (getPage demoStore zeroCapParams)) : Int)
        ≤ effectiveBlockCap zeroCapParams) := by
  refine ⟨by decide, by decide, by decide⟩

/-- C1 (amended): for every page resolved by `getPage` and every depth,
the total number of blocks emitted across the entire returned content
tree is at most the effective block cap, provided that cap is positive —
i.e. the caller supplies a positive `maxBlocks`, or supplies none and the
default (10 in summary mode, 100 otherwise) applies.  (A supplied
`maxBlocks = 0` disables the cap instead, see C9.) -/
theorem c1_block_cap_holds (store : Store) (params : GetPageParams) (pc : PageContent)
    (hcap : 0 < effectiveBlockCap params) (h : getPage store params = .ok pc) :
    (countBlocksList pc.content : Int) ≤ effectiveBlockCap params := by
  obtain ⟨page, hres, hid, hcontent⟩ := getPage_ok_shape store params pc h
  rw [hcontent]
  unfold getChildBlocks
  by_cases hd : params.depth ≤ 0
  · simp only [hd, if_true]
    simp [countBlocksList]
    omega
  · simp only [hd, if_false]
    have hcapf : capReached (some (effectiveBlockCap params)) 0 = false := by
      simp [capReached]
      omega
    rw [hcapf]
    simp only [Bool.false_eq_true, if_false]
    have hcnt := walk_count store (some (effectiveBlockCap params)) (effectiveTextCap params)
      (params.depth - 0 - 1) (childrenQuery store page.id) 0
    have hle := walk_cap_le store (effectiveBlockCap params) (effectiveTextCap params) hcap
      (params.depth - 0 - 1) (childrenQuery store page.id) 0 (by push_cast; omega)
    omega

/-- C1 witness: on `demoStore` with the default parameters the cap is the
summary default 10 and the emitted count stays within it. -/
theorem c1_witness :
    0 < effectiveBlockCap { pageId := "p0" } ∧
    (countBlocksList (okContent (getPage demoStore { pageId := "p0" })) : Int)
      ≤ effectiveBlockCap { pageId := "p0" } := by
  constructor
  · decide
  · cases hE : getPage demoStore ({ pageId := "p0" } : GetPageParams) with
    | error e =>
      have hok : (getPage demoStore ({ pageId := "p0" } : GetPageParams)).isOk = true := by decide
      rw [hE] at hok
      simp [Except.isOk, Except.toBool] at hok
    | ok pc =>
      have h := c1_block_cap_holds demoStore { pageId := "p0" } pc (by decide) hE
      simpa [okContent] using h

/-! ## C9 -/

/-- C9: a caller-supplied `maxBlocks = 0` disables the block cap rather
than enforcing it as zero: the cap comparison treats a zero cap as
absent, and the returned tree is the depth-only traversal, bounded by
`depth` and not by any block count. -/
theorem c9_zero_cap_disables (store : Store) :
    (∀ (mtl : Nat) (parentId : String) (currentDepth maxDepth count : Nat),
      getChildBlocks store (some 0) mtl parentId currentDepth maxDepth count
        = getChildBlocks store none mtl parentId currentDepth maxDepth count) ∧
    (∀ (params : GetPageParams) (pc : PageContent), params.maxBlocks = some 0 →
      getPage store params = .ok pc →
      pc.content = depthOnlyContent store (effectiveTextCap params) params.depth pc.id) := by
  constructor
  · intro mtl parentId currentDepth maxDepth count
    unfold getChildBlocks
    by_cases hd : maxDepth ≤ currentDepth
    · simp [hd]
    · simp only [hd, if_false]
      have h0 : capReached (some 0) count = false := by simp [capReached]
      have h1 : capReached none count = false := rfl
      rw [h0, h1]
      simp only [Bool.false_eq_true, if_false]
      exact walk_zero_cap_eq store mtl _ _ count
  · intro params pc hmb h
    obtain ⟨page, hres, hid, hcontent⟩ := getPage_ok_shape store params pc h
    rw [hcontent, hid]
    have hcapEq : effectiveBlockCap params = 0 := by simp [effectiveBlockCap, hmb]
    rw [hcapEq]
    unfold getChildBlocks depthOnlyContent
    by_cases hd : params.depth = 0
    · simp [hd]
    · have hd' : ¬ (params.depth ≤ 0) := by omega
      simp only [hd, hd', if_false]
      have h0 : capReached (some 0) 0 = false := by simp [capReached]
      rw [h0]
      simp only [Bool.false_eq_true, if_false]
      rw [walk_zero_cap_eq store _ _ _ 0, walk_none_fst store _ _ _ 0]
      simp

/-- C9 witness: on `demoStore`, the zero-cap and capless traversals agree
and the zero-cap `getPage` yields exactly the depth-only forest. -/
theorem c9_witness :
    getChildBlocks demoStore (some 0) 200 "p0" 0 2 0
      = getChildBlocks demoStore none 200 "p0" 0 2 0 ∧
    okContent (getPage demoStore zeroCapParams)
      = depthOnlyContent demoStore (effectiveTextCap zeroCapParams) zeroCapParams.depth "p0" := by
  constructor
  · exact (c9_zero_cap_disables demoStore).1 200 "p0" 0 2 0
  · cases hE : getPage demoStore zeroCapParams with
    | error e =>
      have hok : (getPage demoStore zeroCapParams).isOk = true := by decide
      rw [hE] at hok
      simp [Except.isOk, Except.toBool] at hok
    | ok pc =>
      have hcont := (c9_zero_cap_disables demoStore).2 zeroCapParams pc rfl hE
      obtain ⟨page, hres, hid, _⟩ := getPage_ok_shape demoStore zeroCapParams pc hE
      have hres0 : resolveBlock demoStore "p0" = some demoRoot := rfl
      have hpage : page = demoRoot := by
        have h2 : some page = some demoRoot := by rw [← hres, ← hres0]; rfl
        exact Option.some_inj.mp h2
      simp only [okContent]
      rw [hcont, hid, hpage]
      rfl

/-! ## C2: `getParents` on cyclic parent chains -/

/-- The parent chain of identifiers from a page: `chainId 0` is the page
id itself, and each next element is the parent id of the resolved block
(absent once resolution fails or a root is reached). -/
def chainId (store : Store) (pageId : String) : Nat → Option String
  | 0 => some pageId
  | n + 1 =>
    match chainId store pageId n with
    | none => none
    | some c =>
      match resolveBlock store c with
      | none => none
      | some b => b.parent_id

/-- Modelled from the claim's words: the ancestors visited along the
parent chain, immediate parent first, halting at the first identifier
already seen, at a dangling reference, or at a missing parent. -/
def specWalkNodes (store : Store) : Nat → List String → Option String → List ParentNode
  | 0, _, _ => []
  | _ + 1, _, none => []
  | fuel + 1, seen, some cid =>
    if cid ∈ seen then []
    else
      match resolveBlock store cid with
      | none => []
      | some b => mkParentNode b :: specWalkNodes store fuel (cid :: seen) b.parent_id

/-- Modelled from the claim's words: the finite prefix of ancestors
before the first repeated identifier, the starting block itself excluded,
immediate parent first. -/
def ancestorsSpec (store : Store) (pageId : String) : List ParentNode :=
  match resolveBlock store pageId with
  | none => []
  | some b => specWalkNodes store (store.blocks.length + 1) [pageId] b.parent_id

/-- Every identifier the loop can hold: the requested page id and the
stored parent ids. -/
def parentCandidates (store : Store) (pageId : String) : List String :=
  pageId :: store.blocks.filterMap (fun b => b.parent_id)

/-- How many candidate identifiers are not yet in the visited set. -/
def freshCount (store : Store) (pageId : String) (visited : List String) : Nat :=
  ((parentCandidates store pageId).filter (fun c => c ∉ visited)).length

/-- Extending the visited set cannot increase the fresh-candidate
count. -/
theorem filter_notMem_length_le (l v : List String) (x : String) :
    (l.filter (fun c => c ∉ x :: v)).length ≤ (l.filter (fun c => c ∉ v)).length := by
  apply List.Sublist.length_le
  apply List.monotone_filter_right
  intro a ha
  simp only [decide_eq_true_eq, List.mem_cons, not_or] at ha ⊢
  exact ha.2

/-- Visiting a fresh candidate strictly decreases the fresh-candidate
count. -/
theorem filter_notMem_length_lt (l v : List String) (x : String)
    (hxl : x ∈ l) (hxv : x ∉ v) :
    (l.filter (fun c => c ∉ x :: v)).length < (l.filter (fun c => c ∉ v)).length := by
  induction l with
  | nil => simp at hxl
  | cons a t IH =>
    by_cases hax : a = x
    · subst hax
      simp only [List.filter_cons]
      have hp : (decide (a ∉ a :: v)) = false := by simp
      have hq : (decide (a ∉ v)) = true := by simpa using hxv
      rw [hp, hq]
      simp only [Bool.false_eq_true, if_false, if_true, List.length_cons]
      have := filter_notMem_length_le t v a
      omega
    · have hxt : x ∈ t := by
        cases List.mem_cons.mp hxl with
        | inl h => exact absurd h.symm hax
        | inr h => exact h
      have hIH := IH hxt
      simp only [List.filter_cons]
      have hagree : (decide (a ∉ x :: v)) = (decide (a ∉ v)) := by
        simp only [List.mem_cons, not_or, decide_not]
        simp [hax]
      rw [hagree]
      by_cases hav : (decide (a ∉ v)) = true
      · rw [hav]
        simp only [if_true, List.length_cons]
        omega
      · rw [Bool.of_not_eq_true hav]
        simp only [Bool.false_eq_true, if_false]
        exact hIH

/-- One extra unit of fuel changes nothing once the fuel exceeds the
number of fresh candidate identifiers: every iteration either stops or
consumes a fresh candidate, so the loop's stopping time is bounded — the
unbounded `while` of the source terminates. -/
theorem parentsLoop_fuel_succ (store : Store) (pageId : String) :
    ∀ (fuel : Nat) (cur : Option String) (visited : List String) (acc : List ParentNode),
    (∀ c, cur = some c → c ∈ parentCandidates store pageId) →
    freshCount store pageId visited < fuel →
    parentsLoop store pageId (fuel + 1) cur visited acc
      = parentsLoop store pageId fuel cur visited acc := by
  intro fuel
  induction fuel with
  | zero =>
    intro cur visited acc hcand hlt
    exact absurd hlt (Nat.not_lt_zero _)
  | succ f IH =>
    intro cur visited acc hcand hlt
    cases cur with
    | none => simp [parentsLoop]
    | some c =>
      simp only [parentsLoop]
      by_cases hv : c ∈ visited
      · simp [hv]
      · simp only [hv, if_false]
        cases hres : resolveBlock store c with
        | none => rfl
        | some b =>
          apply IH
          · intro c' hc'
            have hb : b ∈ store.blocks := by
              apply List.mem_of_find?_eq_some
              simpa [resolveBlock] using hres
            exact List.mem_cons_of_mem _ (List.mem_filterMap.mpr ⟨b, hb, hc'⟩)
          · have hcc : c ∈ parentCandidates store pageId := hcand c rfl
            have hlt2 := filter_notMem_length_lt (parentCandidates store pageId) visited c hcc hv
            have hfc : freshCount store pageId (c :: visited) < freshCount store pageId visited := by
              simpa [freshCount] using hlt2
            omega

/-- The loop with the source-modelling fuel and the loop with any extra
fuel agree: the fuel is past the stopping time. -/
theorem parentsLoop_fuel_stable (store : Store) (pageId : String) :
    ∀ (extra : Nat),
    parentsLoop store pageId (parentsFuel store + extra) (some pageId) [] []
      = parentsLoop store pageId (parentsFuel store) (some pageId) [] [] := by
  intro extra
  induction extra with
  | zero => rfl
  | succ e IH =>
    have hlt : freshCount store pageId [] < parentsFuel store + e := by
      unfold freshCount parentsFuel parentCandidates
      have h1 := List.length_filterMap_le (fun (b : BlockRow) => b.parent_id) store.blocks
      have h2 := List.length_filter_le (fun c => decide (c ∉ ([] : List String)))
        (pageId :: store.blocks.filterMap (fun b => b.parent_id))
      simp only [List.length_cons] at h2
      omega
    have hstep := parentsLoop_fuel_succ store pageId (parentsFuel store + e) (some pageId) [] []
      (fun c hc => by
        injection hc with h
        subst h
        exact List.mem_cons_self _ _) hlt
    rw [show parentsFuel store + (e + 1) = (parentsFuel store + e) + 1 from rfl, hstep, IH]

/-- The loop, started anywhere with the page id already in the visited
set, is the claim's walk with the accumulated prefix in front. -/
theorem parentsLoop_spec (store : Store) (pageId : String) :
    ∀ (fuel : Nat) (cur : Option String) (seen : List String) (acc : List ParentNode),
    pageId ∈ seen →
    parentsLoop store pageId fuel cur seen acc = acc ++ specWalkNodes store fuel seen cur := by
  intro fuel
  induction fuel with
  | zero => intro cur seen acc hseen; simp [parentsLoop, specWalkNodes]
  | succ f IH =>
    intro cur seen acc hseen
    cases cur with
    | none => simp [parentsLoop, specWalkNodes]
    | some c =>
      simp only [parentsLoop, specWalkNodes]
      by_cases hv : c ∈ seen
      · simp [hv]
      · simp only [hv, if_false]
        cases hres : resolveBlock store c with
        | none => simp
        | some b =>
          have hc_ne : c ≠ pageId := fun h => hv (h ▸ hseen)
          have hcond : (decide (acc.length > 0) || (c != pageId)) = true := by
            simp [hc_ne]
          dsimp only
          rw [if_pos hcond]
          rw [IH b.parent_id (c :: seen) (acc ++ [mkParentNode b])
            (List.mem_cons_of_mem _ hseen)]
          simp

/-- A non-empty page id makes `getParents` return exactly the claim's
ancestor prefix. -/
theorem getParents_eq_spec (store : Store) (pageId : String) (hne : ¬ jsTrim pageId = "") :
    getParents store pageId = .ok (ancestorsSpec store pageId) := by
  unfold getParents
  rw [if_neg hne]
  congr 1
  show parentsLoop store pageId ((store.blocks.length + 1) + 1) (some pageId) [] [] = _
  simp only [parentsLoop]
  have hnv : ¬ pageId ∈ ([] : List String) := List.not_mem_nil pageId
  rw [if_neg hnv]
  cases hres : resolveBlock store pageId with
  | none => simp [ancestorsSpec, hres]
  | some b =>
    have hcond : (decide (([] : List ParentNode).length > 0) || (pageId != pageId)) = false := by
      simp
    rw [hcond]
    simp only [Bool.false_eq_true, if_false]
    rw [parentsLoop_spec store pageId (store.blocks.length + 1) b.parent_id [pageId] []
      (List.mem_singleton.mpr rfl)]
    simp [ancestorsSpec, hres]

/-- C2: for every block store in which the page's parent chain contains a
cycle, `getParents` terminates — the loop's result is stable under any
extra fuel beyond the modelled stopping-time bound — and its output is
exactly the finite prefix of ancestors visited before the first repeated
identifier, the starting block itself excluded, immediate parent first
(`ancestorsSpec`). -/
theorem c2_getParents_cycle (store : Store) (pageId : String)
    (hne : ¬ jsTrim pageId = "")
    (hcyc : ∃ i j, i < j ∧ chainId store pageId i ≠ none ∧
      chainId store pageId i = chainId store pageId j) :
    getParents store pageId = .ok (ancestorsSpec store pageId) ∧
    ∀ (extra : Nat),
      parentsLoop store pageId (parentsFuel store + extra) (some pageId) [] []
        = parentsLoop store pageId (parentsFuel store) (some pageId) [] [] :=
  ⟨getParents_eq_spec store pageId hne, parentsLoop_fuel_stable store pageId⟩

/-- A two-block store whose parent chain is the cycle `a → b → a`. -/
def cycleRowA : BlockRow :=
  { id := "a"
    type := "page"
    properties := some (demoTitle "A")
    parent_id := some "b"
    created_time := none
    last_edited_time := none
    alive := true }

/-- The second block of the cycle. -/
def cycleRowB : BlockRow :=
  { id := "b"
    type := "page"
    properties := some (demoTitle "B")
    parent_id := some "a"
    created_time := none
    last_edited_time := none
    alive := true }

/-- The cyclic store. -/
def cycleStore : Store := { blocks := [cycleRowA, cycleRowB], collections := [] }

/-- C2 witness: on the cyclic store, `getParents "a"` terminates with the
one-ancestor prefix and is fuel-stable. -/
theorem c2_witness :
    getParents cycleStore "a" = .ok (ancestorsSpec cycleStore "a") ∧
    parentsLoop cycleStore "a" (parentsFuel cycleStore + 3) (some "a") [] []
      = parentsLoop cycleStore "a" (parentsFuel cycleStore) (some "a") [] [] := by
  have h := c2_getParents_cycle cycleStore "a" (by decide)
    ⟨0, 2, by omega, by decide, by decide⟩
  exact ⟨h.1, h.2 3⟩

/-! ## C3: dash-insensitivity round-trip of `formatNotionId` -/

/-- Stripping dashes from a dash-free string changes nothing. -/
theorem stripDashes_of_no_dash {s : String} (h : hasDash s = false) : stripDashes s = s := by
  have hmem : ¬ '-' ∈ s.data := by
    intro hm
    have hc : s.data.contains '-' = true := List.elem_iff.mpr hm
    rw [hasDash, hc] at h
    simp at h
  unfold stripDashes
  cases s with
  | mk l =>
    congr 1
    apply List.filter_eq_self.mpr
    intro a ha
    simp only [decide_eq_true_eq]
    intro he
    exact hmem (he ▸ ha)

/-- The dashed rendering always contains a dash, so `formatNotionId` is
idempotent on dash-free inputs. -/
theorem formatNotionId_idem_of_no_dash {s : String} (h : hasDash s = false) :
    formatNotionId (formatNotionId s) = formatNotionId s := by
  have hd : hasDash (formatNotionId s) = true := by
    unfold formatNotionId
    rw [if_neg (by simp [h])]
    unfold hasDash
    apply List.elem_iff.mpr
    have hdm : '-' ∈ ("-" : String).data := by decide
    simp only [String.data_append, List.mem_append]
    tauto
  rw [formatNotionId]
  rw [if_pos hd]

/-- C3 counterexample: the round-trip `canonicalize(strip(id)) ==
canonicalize(id)` fails for the input `"a-b"`, whose dash is not at a
canonical offset: the left side is `"ab----"`, the right side `"a-b"`. -/
theorem c3_counterexample : formatNotionId (stripDashes "a-b") ≠ formatNotionId "a-b" := by
  decide

/-- C3 (amended): `canonicalize(strip(id)) = canonicalize(id)` for every
id that is dash-free, and for every id that is the canonical dashed
rendering of its own stripped form (in particular every properly dashed
identifier) — but not for arbitrary strings with dashes at non-canonical
offsets. -/
theorem c3_canonicalize_strip (id : String)
    (h : hasDash id = false ∨ id = formatNotionId (stripDashes id)) :
    formatNotionId (stripDashes id) = formatNotionId id := by
  cases h with
  | inl h => rw [stripDashes_of_no_dash h]
  | inr h =>
    conv_rhs => rw [h]
    have hs : hasDash (stripDashes id) = false := by
      have hnm : ¬ '-' ∈ (id.data.filter (fun c => decide (c ≠ '-'))) := by
        intro hm
        have hp := List.of_mem_filter hm
        simp at hp
      unfold hasDash stripDashes
      exact Bool.eq_false_iff.mpr (fun hc => hnm (List.elem_iff.mp hc))
    exact (formatNotionId_idem_of_no_dash hs).symm

/-- C3 witness: the 32-hex-digit scenario id round-trips, and its
canonical form is the spec's dashed rendering. -/
theorem c3_witness :
    hasDash "abcd1234abcd1234abcd1234abcd1234" = false ∧
    formatNotionId (stripDashes "abcd1234abcd1234abcd1234abcd1234")
      = formatNotionId "abcd1234abcd1234abcd1234abcd1234" ∧
    formatNotionId "abcd1234abcd1234abcd1234abcd1234"
      = "abcd1234-abcd-1234-abcd-1234abcd1234" :=
  ⟨by decide,
   c3_canonicalize_strip "abcd1234abcd1234abcd1234abcd1234" (Or.inl (by decide)),
   by decide⟩

/-! ## C10: `formatTimestamp` on 0 and NULL -/

/-- C10: `formatTimestamp` treats the timestamp 0 the same as NULL — it
returns the empty string rather than the ISO-8601 rendering of the epoch
instant — and renders every non-zero non-null timestamp as the ISO-8601
UTC string. -/
theorem c10_formatTimestamp_zero :
    formatTimestamp (some 0) = "" ∧
    formatTimestamp none = "" ∧
    toIsoString 0 = "1970-01-01T00:00:00.000Z" ∧
    formatTimestamp (some 0) ≠ toIsoString 0 ∧
    ∀ (n : Int), n ≠ 0 → formatTimestamp (some n) = toIsoString n := by
  refine ⟨rfl, rfl, by decide, by decide, ?_⟩
  intro n hn
  simp [formatTimestamp, hn]

/-- C10 witness: one day past the epoch is rendered, zero is not. -/
theorem c10_witness : formatTimestamp (some 86400000) = toIsoString 86400000 :=
  c10_formatTimestamp_zero.2.2.2.2 86400000 (by decide)

/-! ## C5: totality and shape of `extractTextFromRichText` -/

/-- Modelled from the spec's words: a segment's text field, absent when
the segment is malformed (not an array, empty, or first element not a
string). -/
def specSegmentTextField : JsVal → Option String
  | .arr (.str t :: _) => some t
  | _ => none

/-- Modelled from the spec's words: each segment contributes its text
field (empty when malformed or missing), with the page-reference glyph
dropped. -/
def specSegmentContribution (seg : JsVal) : String :=
  match specSegmentTextField seg with
  | none => ""
  | some t => if t = "‣" then "" else t

/-- Modelled from the spec's words: join the contributions with no
separator and trim; any non-array input degrades to the empty string. -/
def extractPlainTextSpec : JsVal → String
  | .arr segments => jsTrim (String.join (segments.map specSegmentContribution))
  | _ => ""

/-- C5: `extractTextFromRichText` is total — every input, including
non-arrays, empty segments and segments with a non-string head, yields a
string — and it equals the spec's description: malformed segments
contribute `""`, texts are concatenated in order with no separator, the
page-reference glyph is skipped, and the result is trimmed. -/
theorem c5_extractPlainText_total (v : JsVal) :
    extractTextFromRichText v = extractPlainTextSpec v := by
  have hseg : ∀ seg, segmentText seg = specSegmentContribution seg := by
    intro seg
    cases seg with
    | arr l =>
      cases l with
      | nil => rfl
      | cons t rest => cases t <;> rfl
    | str s => rfl
    | num n => rfl
    | bool b => rfl
    | null => rfl
    | undefined => rfl
    | obj kvs => rfl
  have hfun : segmentText = specSegmentContribution := funext hseg
  cases v <;> simp [extractTextFromRichText, extractPlainTextSpec, hfun]

/-! ## C7: `extractRelationIds` -/

/-- Modelled from the claim's words: a segment's annotation list. -/
def claimSegmentAnnotations : JsVal → List JsVal
  | .arr (_ :: .arr anns :: _) => anns
  | _ => []

/-- Modelled from the claim's words: the payload of a two-element
`["p", pageId]` annotation pair. -/
def claimTwoElemPayload : JsVal → Option JsVal
  | .arr [x, y] =>
    match x with
    | .str k => if k = "p" then some y else none
    | _ => none
  | _ => none

/-- The claim's reading of `extractRelationIds`: the payloads of every
two-element `["p", pageId]` pair, in encounter order across all segments'
annotation lists, duplicates preserved. -/
def claimRelationIds (segs : List JsVal) : List JsVal :=
  ((segs.map claimSegmentAnnotations).flatten).filterMap claimTwoElemPayload

/-- A rich-text input with one empty-payload pair and one three-element
`"p"` annotation. -/
def c7Input : List JsVal :=
  [.arr [.str "x", .arr [.arr [.str "p", .str ""], .arr [.str "p", .str "id1", .str "junk"]]]]

/-- C7 counterexample: on `c7Input` the code returns `["id1"]` — it skips
the two-element pair `["p", ""]` because its payload is falsy, and it
collects from the three-element annotation — while the claim's
two-element-pairs reading returns `[""]`. -/
theorem c7_counterexample : extractRelationIds c7Input ≠ claimRelationIds c7Input := by
  have h1 : extractRelationIds c7Input = [.str "id1"] := rfl
  have h2 : claimRelationIds c7Input = [.str ""] := rfl
  rw [h1, h2]
  intro h
  injection h with hhead _
  injection hhead with hs
  exact absurd hs (by decide)

/-- Modelled from the amended claim: the payload of an annotation entry
that is an array whose first element is the string `"p"` and whose second
element is truthy (for string payloads: non-empty), regardless of any
further elements. -/
def amendedPayload : JsVal → Option JsVal
  | .arr (x :: y :: _) =>
    match x with
    | .str k => if k = "p" ∧ y.truthy = true then some y else none
    | _ => none
  | _ => none

/-- C7 (amended): `extractRelationIds` returns the payloads of every
annotation entry whose first element is `"p"` and whose second element is
truthy, in encounter order across all segments' annotation lists,
duplicates preserved. -/
theorem c7_relation_ids (segs : List JsVal) :
    extractRelationIds segs
      = ((segs.map claimSegmentAnnotations).flatten).filterMap amendedPayload := by
  have hann : ∀ a, annotationRelId a = amendedPayload a := by
    intro a
    cases a with
    | arr l =>
      cases l with
      | nil => rfl
      | cons x ys =>
        cases ys with
        | nil => cases x <;> rfl
        | cons y rest2 =>
          cases x with
          | str k =>
            by_cases hk : k = "p" <;> cases hy : y.truthy <;>
              simp [annotationRelId, amendedPayload, hk, hy]
          | num n => rfl
          | bool b => rfl
          | null => rfl
          | undefined => rfl
          | arr l2 => rfl
          | obj kvs => rfl
    | str s => rfl
    | num n => rfl
    | bool b => rfl
    | null => rfl
    | undefined => rfl
    | obj kvs => rfl
  have hannF : annotationRelId = amendedPayload := funext hann
  induction segs with
  | nil => rfl
  | cons seg rest IH =>
    rw [extractRelationIds]
    simp only [List.map_cons, List.flatten_cons, List.filterMap_append, IH]
    congr 1
    cases seg with
    | arr l =>
      cases l with
      | nil => rfl
      | cons a t =>
        cases t with
        | nil => rfl
        | cons ann t2 =>
          cases ann with
          | arr anns =>
            show anns.filterMap annotationRelId = anns.filterMap amendedPayload
            rw [hannF]
          | str s => rfl
          | num n => rfl
          | bool b => rfl
          | null => rfl
          | undefined => rfl
          | obj kvs => rfl
    | str s => rfl
    | num n => rfl
    | bool b => rfl
    | null => rfl
    | undefined => rfl
    | obj kvs => rfl

/-! ## C6: checkbox projection -/

/-- C6: for every property declared as type `checkbox` in the schema, the
projected value is `true` iff the extracted plain text of its raw value
is exactly `"Yes"`; every other extracted text, including the empty
string, projects to `false`.  The last conjunct exercises the whole of
`parseProperties` on a one-property map. -/
theorem c6_checkbox (schema : Option ParsedSchema) (propId : String) (raw : JsVal)
    (hty : resolvedPropType schema propId = "checkbox") :
    decodePropValue (resolvedPropType schema propId) raw
      = some (.flag (extractTextFromRichText raw == "Yes")) ∧
    (decodePropValue (resolvedPropType schema propId) raw = some (.flag true) ↔
      extractTextFromRichText raw = "Yes") ∧
    (raw.truthy = true →
      parseProperties (some (.obj [(propId, raw)])) schema
        = some [(resolvedPropName schema propId,
            ⟨resolvedPropName schema propId, "checkbox",
              .flag (extractTextFromRichText raw == "Yes")⟩)]) := by
  refine ⟨?_, ?_, ?_⟩
  · rw [hty]
    simp [decodePropValue]
  · rw [hty]
    simp [decodePropValue]
  · intro htr
    simp [parseProperties, JsVal.entriesOf, parsePropertiesCore, htr, hty,
      decodePropValue, jsObjSet]

/-- A one-property schema declaring `cb` as a checkbox named `Done`. -/
def c6Schema : Option ParsedSchema :=
  some [("cb", { name := some "Done", type := some "checkbox", options := none })]

/-- The raw rich-text value `[["Yes"]]`. -/
def c6RawYes : JsVal := .arr [.arr [.str "Yes"]]

/-- C6 witness: the checkbox property `cb` with raw value `[["Yes"]]`
projects to `true` under the one-property schema. -/
theorem c6_witness :
    parseProperties (some (.obj [("cb", c6RawYes)])) c6Schema
      = some [(resolvedPropName c6Schema "cb",
          ⟨resolvedPropName c6Schema "cb", "checkbox",
            .flag (extractTextFromRichText c6RawYes == "Yes")⟩)] ∧
    decodePropValue (resolvedPropType c6Schema "cb") c6RawYes = some (.flag true) := by
  have h := c6_checkbox c6Schema "cb" c6RawYes (by decide)
  exact ⟨h.2.2 (by decide), (h.2.1).mpr (by decide)⟩

/-! ## C8: `search` argument validation and result bound -/

/-- C8: `search` fails with the InvalidArgument error exactly when the
query is empty after trimming; for every non-empty query the call
succeeds (it never raises InvalidArgument) and returns at most `limit`
results. -/
theorem c8_search_invalid_argument (store : Store) (params : SearchParams) :
    (search store params = .error "Query is required" ↔ jsTrim params.query = "") ∧
    (jsTrim params.query ≠ "" → (search store params).isOk = true) ∧
    (∀ rs, search store params = .ok rs → rs.length ≤ params.limit) := by
  refine ⟨⟨?_, ?_⟩, ?_, ?_⟩
  · intro h
    by_contra hne
    simp [search, hne] at h
  · intro h
    simp [search, h]
  · intro h
    simp [search, h, Except.isOk, Except.toBool]
  · intro rs h
    unfold search at h
    by_cases hq : jsTrim params.query = ""
    · rw [if_pos hq] at h
      exact absurd h (by simp)
    · rw [if_neg hq] at h
      simp only [Except.ok.injEq] at h
      subst h
      by_cases ht : (params.type == "page") = true <;>
        simp only [ht, Bool.false_eq_true, if_true, if_false, List.length_map,
          List.length_take] <;>
        omega

/-- C8 witness: on `demoStore`, a whitespace query raises the
InvalidArgument error, and the query `"Root"` with limit 5 succeeds with
at most 5 results. -/
theorem c8_witness :
    search demoStore { query := "   " } = .error "Query is required" ∧
    (search demoStore { query := "Root", limit := 5 }).isOk = true ∧
    ((search demoStore { query := "Root", limit := 5 }).toOption.getD []).length ≤ 5 := by
  have h1 := (c8_search_invalid_argument demoStore { query := "   " }).1.mpr (by decide)
  have h2 := (c8_search_invalid_argument demoStore { query := "Root", limit := 5 }).2.1
    (by decide)
  refine ⟨h1, h2, ?_⟩
  cases hE : search demoStore { query := "Root", limit := 5 } with
  | error e =>
    rw [hE] at h2
    simp [Except.isOk, Except.toBool] at h2
  | ok rs =>
    have h3 := (c8_search_invalid_argument demoStore { query := "Root", limit := 5 }).2.2 rs hE
    simpa [Except.toOption] using h3

/-! ## C4: `getRecentPages` with a 30-day window -/

/-- Insertion keeps exactly the elements. -/
theorem mem_insertSorted {α : Type} (le : α → α → Bool) (x a : α) (l : List α) :
    a ∈ insertSorted le x l ↔ a ∈ x :: l := by
  induction l with
  | nil => simp [insertSorted]
  | cons y ys IH =>
    rw [insertSorted]
    by_cases hle : le x y = true
    · simp [hle]
    · simp only [hle, Bool.false_eq_true, if_false, List.mem_cons, IH]
      tauto

/-- Sorting keeps exactly the elements. -/
theorem mem_sortBy {α : Type} (le : α → α → Bool) (a : α) (l : List α) :
    a ∈ sortBy le l ↔ a ∈ l := by
  induction l with
  | nil => simp [sortBy]
  | cons x xs IH =>
    rw [sortBy, mem_insertSorted]
    simp [IH]

/-- The post-filter predicate of the source (`title.length > 0`) is the
non-empty-title test. -/
theorem title_pred_eq (s : String) : (decide (s.length > 0)) = (s != "") := by
  cases s with
  | mk l =>
    cases l with
    | nil => decide
    | cons c cs =>
      have h1 : (String.mk (c :: cs)).length > 0 := by
        simp [String.length]
      have h2 : String.mk (c :: cs) ≠ "" := by
        intro h
        have hd := congrArg String.data h
        simp at hd
      simp [h1, h2]

/-- Modelled from the spec sentence: select alive page-type blocks with
last-modified strictly greater than `now − days·86400000`, order them
descending by last-modified, bound by `limit`, THEN drop any result whose
extracted title is empty. -/
def recentSpec (store : Store) (limit : Nat) (days now : Int) : List RecentPage :=
  let cutoff := now - days * 86400000
  let qualifying := store.blocks.filter (fun b =>
    b.alive && b.type == "page" && editedAfter b cutoff)
  (((sortBy byLastEditedDesc qualifying).take limit).map mkRecentPage).filter
    (fun p => p.title != "")

/-- C4: every result of `getRecentPages` with a 30-day window comes from
an alive page row whose last-modified timestamp is strictly greater than
`now − 30·86400000` ms and has a non-empty extracted title; the result
count never exceeds `limit`; and the pipeline is exactly the spec's
select–sort–limit–THEN–filter order. -/
theorem c4_recent_window (store : Store) (now : Int) (limit : Nat) :
    (∀ p ∈ getRecentPages store { limit := limit, days := 30 } now,
      p.title ≠ "" ∧ ∃ b ∈ store.blocks, p = mkRecentPage b ∧ b.type = "page" ∧
        b.alive = true ∧ ∃ t, b.last_edited_time = some t ∧ now - 30 * 86400000 < t) ∧
    (getRecentPages store { limit := limit, days := 30 } now).length ≤ limit ∧
    getRecentPages store { limit := limit, days := 30 } now = recentSpec store limit 30 now := by
  refine ⟨?_, ?_, ?_⟩
  · intro p hp
    unfold getRecentPages at hp
    obtain ⟨hmem, hpred⟩ := List.mem_filter.mp hp
    constructor
    · simp only [decide_eq_true_eq] at hpred
      intro he
      rw [he] at hpred
      exact absurd hpred (by decide)
    · obtain ⟨b, hbtake, hform⟩ := List.mem_map.mp hmem
      have hbsort := List.take_subset _ _ hbtake
      have hbfilter := (mem_sortBy _ _ _).mp hbsort
      obtain ⟨hbblocks, hbpred⟩ := List.mem_filter.mp hbfilter
      simp only [Bool.and_eq_true, beq_iff_eq] at hbpred
      obtain ⟨⟨htype, halive⟩, hed⟩ := hbpred
      refine ⟨b, hbblocks, hform.symm, htype, halive, ?_⟩
      unfold editedAfter at hed
      split at hed
      · simp at hed
      · rename_i t hts
        simp only [decide_eq_true_eq] at hed
        refine ⟨t, hts, ?_⟩
        have h30 : (30 * 24 * 60 * 60 * 1000 : Int) = 30 * 86400000 := by norm_num
        omega
  · unfold getRecentPages
    calc ((((sortBy byLastEditedDesc _).take limit).map mkRecentPage).filter _).length
        ≤ (((sortBy byLastEditedDesc _).take limit).map mkRecentPage).length :=
          List.length_filter_le _ _
      _ = ((sortBy byLastEditedDesc _).take limit).length := List.length_map _ _
      _ ≤ limit := by
          simp only [List.length_take]
          omega
  · have hcut : (now - 30 * 24 * 60 * 60 * 1000 : Int) = now - 30 * 86400000 := by
      norm_num
    have hfilter : (fun (b : BlockRow) =>
          b.type == "page" && b.alive && editedAfter b (now - 30 * 24 * 60 * 60 * 1000))
        = (fun b => b.alive && b.type == "page" && editedAfter b (now - 30 * 86400000)) := by
      funext b
      rw [hcut]
      cases b.alive <;> cases hbt : (b.type == "page") <;> simp [hbt]
    have hpred : (fun (page : RecentPage) => decide (page.title.length > 0))
        = (fun page => page.title != "") :=
      funext (fun p => title_pred_eq p.title)
    simp only [getRecentPages, recentSpec]
    rw [hpred, hfilter]

/-- C4 witness: on `demoStore` at `now = 10` the 30-day window returns
exactly the root page, within the limit, equal to the spec pipeline, and
with a non-empty title. -/
theorem c4_witness :
    (getRecentPages demoStore { limit := 20, days := 30 } 10).length ≤ 20 ∧
    getRecentPages demoStore { limit := 20, days := 30 } 10 = recentSpec demoStore 20 30 10 ∧
    (mkRecentPage demoRoot).title ≠ "" := by
  have h := c4_recent_window demoStore 10 20
  refine ⟨h.2.1, h.2.2, ?_⟩
  have hres : getRecentPages demoStore { limit := 20, days := 30 } 10
      = [mkRecentPage demoRoot] := rfl
  exact (h.1 (mkRecentPage demoRoot) (by rw [hres]; exact List.mem_singleton.mpr rfl)).1
